import Mathlib

/-!
Verification development for the `life_expectancy` package: a shallow
embedding of its readers (`readers.py`), cleaning pipeline (`cleaning.py`)
and region catalog (`enums.py`), together with theorems about the embedded
definitions.

Conventions of the embedding:
* Python/pandas strings are Lean `String`s, but all computation is done on
  their `List Char` contents with structural recursion, so that every
  definition evaluates inside the kernel.
* Floating-point cells are modelled as rationals; every rational produced by
  a parser is built with `mkRat` (numerator/denominator), again so that the
  kernel can evaluate it.  `Rat.mkRat_eq_div` recovers the usual reading.
* pandas `NaN` is modelled by `Option`/a `null` cell; "row is dropped by
  `dropna`" is modelled by `filterMap`/`filter`.
* Fallible operations (raising Python exceptions) return `Option`/`Except`.
-/

/-! ## Character-level text helpers (models of Python `str` methods) -/

/-- Value of a run of decimal digit characters in base 10. -/
def digitsToNat (l : List Char) : ℕ :=
  l.foldl (fun a c => 10 * a + (c.toNat - '0'.toNat)) 0

/-- Split a character list into its leading maximal digit run and the rest. -/
def takeDigits (l : List Char) : List Char × List Char :=
  (l.takeWhile Char.isDigit, l.dropWhile Char.isDigit)

/-- Model of Python `str.strip()`: drop whitespace from both ends. -/
def trimChars (l : List Char) : List Char :=
  ((l.dropWhile Char.isWhitespace).reverse.dropWhile Char.isWhitespace).reverse

/-- Model of Python `str.strip()` on a `String`. -/
def pyStrip (s : String) : String :=
  ⟨trimChars s.data⟩

/-- Model of Python `str.lower()`. -/
def pyLower (s : String) : String :=
  ⟨s.data.map Char.toLower⟩

/-- Model of Python `str.upper()`. -/
def pyUpper (s : String) : String :=
  ⟨s.data.map Char.toUpper⟩

/-- Split a character list at every occurrence of the separator character
(model of Python `str.split(sep)` for a one-character separator). -/
def splitOnChar (sep : Char) : List Char → List (List Char)
  | [] => [[]]
  | c :: rest =>
    let r := splitOnChar sep rest
    if c = sep then [] :: r
    else
      match r with
      | [] => [[c]]
      | h :: t => (c :: h) :: t

/-- Model of Python `s.split(sep)` for a one-character separator. -/
def pySplit (s : String) (sep : Char) : List String :=
  (splitOnChar sep s.data).map (fun l => (⟨l⟩ : String))

/-- Remove every occurrence of a character (model of `str.replace(c, "")`,
as used by the delimited reader on `:` and `' '`). -/
def removeChar (c : Char) (s : String) : String :=
  ⟨s.data.filter (fun d => d ≠ c)⟩

/-! ## Numeric text parsing (model of `pd.to_numeric(..., errors="coerce")`) -/

/-- Rational value of a parsed decimal literal: sign, digit value `m` read
with `fracLen` of its digits after the point, and a signed power-of-ten
exponent.  Built with `mkRat` so the kernel can evaluate it. -/
def ratOfParts (neg : Bool) (m : ℕ) (fracLen : ℕ) (eneg : Bool) (e : ℕ) : ℚ :=
  let n : ℤ := if neg then -(m : ℤ) else (m : ℤ)
  if eneg then mkRat n (10 ^ (fracLen + e)) else mkRat (n * 10 ^ e) (10 ^ fracLen)

/-- Parse the exponent suffix of a float literal: empty, or `(e|E)(+|-)?digits`
consuming the whole rest.  Returns the exponent sign and magnitude. -/
def parseExponent : List Char → Option (Bool × ℕ)
  | [] => some (false, 0)
  | c :: rest =>
    if c = 'e' ∨ c = 'E' then
      match rest with
      | '+' :: ds => if ds ≠ [] ∧ ds.all Char.isDigit then some (false, digitsToNat ds) else none
      | '-' :: ds => if ds ≠ [] ∧ ds.all Char.isDigit then some (true, digitsToNat ds) else none
      | ds => if ds ≠ [] ∧ ds.all Char.isDigit then some (false, digitsToNat ds) else none
    else none

/-- Whole-string parse of an optionally signed decimal float literal,
after stripping surrounding whitespace.  Models Python `float(...)` and
therefore `pd.to_numeric(..., errors="coerce")` on a single string cell
(`none` plays the role of `NaN`; the special literals `inf`/`nan` are not
modelled, which is observationally equal here because `NaN` cells are
dropped by every caller). -/
def parseFloatChars (raw : List Char) : Option ℚ :=
  let l0 := trimChars raw
  let sl : Bool × List Char :=
    match l0 with
    | '-' :: r => (true, r)
    | '+' :: r => (false, r)
    | r => (false, r)
  let neg := sl.1
  let (ip, r1) := takeDigits sl.2
  match r1 with
  | '.' :: r2 =>
    let (fp, r3) := takeDigits r2
    if ip = [] ∧ fp = [] then none
    else (parseExponent r3).map (fun p => ratOfParts neg (digitsToNat (ip ++ fp)) fp.length p.1 p.2)
  | r2 =>
    if ip = [] then none
    else (parseExponent r2).map (fun p => ratOfParts neg (digitsToNat ip) 0 p.1 p.2)

/-- `pd.to_numeric(s, errors="coerce")` on a string cell. -/
def parseNumeric (s : String) : Option ℚ :=
  parseFloatChars s.data

/-- Model of Python `int(s)`: optionally signed digit run, whole string,
surrounding whitespace allowed. -/
def parseIntStr (s : String) : Option ℤ :=
  let l0 := trimChars s.data
  let sl : Bool × List Char :=
    match l0 with
    | '-' :: r => (true, r)
    | '+' :: r => (false, r)
    | r => (false, r)
  if sl.2 ≠ [] ∧ sl.2.all Char.isDigit then
    some (if sl.1 then -(digitsToNat sl.2 : ℤ) else (digitsToNat sl.2 : ℤ))
  else none

/-! ## Region catalog (`enums.py`) -/

/-- The `Region` enum: every member of `life_expectancy.enums.Region`,
countries and aggregates, in source order. -/
inductive Region where
  | AL | AM | AT | AZ | BE | BG | BY | CH | CY | CZ
  | DE | DE_TOT | DK | EA18 | EA19 | EE | EEA30_2007 | EEA31 | EFTA | EL
  | ES | EU27_2007 | EU27_2020 | EU28 | FI | FR | FX | GE | HR | HU
  | IE | IS | IT | LI | LT | LU | LV | MD | ME | MK
  | MT | NL | NO | PL | PT | RO | RS | RU | SE | SI
  | SK | SM | TR | UA | UK | XK
deriving DecidableEq

/-- All enum members in declaration order (iteration order of the Python enum). -/
def allRegions : List Region :=
  [.AL, .AM, .AT, .AZ, .BE, .BG, .BY, .CH, .CY, .CZ,
   .DE, .DE_TOT, .DK, .EA18, .EA19, .EE, .EEA30_2007, .EEA31, .EFTA, .EL,
   .ES, .EU27_2007, .EU27_2020, .EU28, .FI, .FR, .FX, .GE, .HR, .HU,
   .IE, .IS, .IT, .LI, .LT, .LU, .LV, .MD, .ME, .MK,
   .MT, .NL, .NO, .PL, .PT, .RO, .RS, .RU, .SE, .SI,
   .SK, .SM, .TR, .UA, .UK, .XK]

/-- `Region.value`: the string value assigned to each member in `enums.py`. -/
def Region.value : Region → String
  | .AL => "AL" | .AM => "AM" | .AT => "AT" | .AZ => "AZ" | .BE => "BE"
  | .BG => "BG" | .BY => "BY" | .CH => "CH" | .CY => "CY" | .CZ => "CZ"
  | .DE => "DE" | .DE_TOT => "DE_TOT" | .DK => "DK" | .EA18 => "EA18"
  | .EA19 => "EA19" | .EE => "EE" | .EEA30_2007 => "EEA30_2007"
  | .EEA31 => "EEA31" | .EFTA => "EFTA" | .EL => "EL" | .ES => "ES"
  | .EU27_2007 => "EU27_2007" | .EU27_2020 => "EU27_2020" | .EU28 => "EU28"
  | .FI => "FI" | .FR => "FR" | .FX => "FX" | .GE => "GE" | .HR => "HR"
  | .HU => "HU" | .IE => "IE" | .IS => "IS" | .IT => "IT" | .LI => "LI"
  | .LT => "LT" | .LU => "LU" | .LV => "LV" | .MD => "MD" | .ME => "ME"
  | .MK => "MK" | .MT => "MT" | .NL => "NL" | .NO => "NO" | .PL => "PL"
  | .PT => "PT" | .RO => "RO" | .RS => "RS" | .RU => "RU" | .SE => "SE"
  | .SI => "SI" | .SK => "SK" | .SM => "SM" | .TR => "TR" | .UA => "UA"
  | .UK => "UK" | .XK => "XK"

/-- `Region` member name, as a string.  In this catalog every member's
Python identifier coincides textually with its assigned value. -/
def Region.name (r : Region) : String :=
  r.value

/-- The fixed aggregate set excluded by `Region.actual_countries`. -/
def excludedAggregates : List Region :=
  [.DE_TOT, .EA18, .EA19, .EEA30_2007, .EEA31, .EFTA, .EU27_2007, .EU27_2020, .EU28]

/-- `Region.actual_countries()`: the catalog minus the aggregate set,
in catalog order. -/
def Region.actual_countries : List Region :=
  allRegions.filter (fun r => ¬ r ∈ excludedAggregates)

/-- Model of Python `Region[name]`: look a member up by symbolic name;
`none` models the `KeyError`. -/
def regionOfName (s : String) : Option Region :=
  allRegions.find? (fun r => r.name = s)

/-! ## Mixed-radix unraveling (`EurostatJSONAdapter._unravel`) -/

/-- Little-endian unravel on naturals: the loop of `_unravel` before its
final reverse (coordinates fastest-dimension-first). -/
def unravelLE : ℕ → List ℕ → List ℕ
  | _, [] => []
  | i, b :: bs => (i % b) :: unravelLE (i / b) bs

/-- Little-endian ravel, the inverse accumulation of `unravelLE`. -/
def ravelLE : List ℕ → List ℕ → ℕ
  | c :: cs, b :: bs => c + b * ravelLE cs bs
  | _, _ => 0

/-- `_unravel` on naturals: repeatedly take the remainder against the last
base, divide, proceed right-to-left, then reverse. -/
def unravelN (i : ℕ) (bases : List ℕ) : List ℕ :=
  (unravelLE i bases.reverse).reverse

/-- Re-ravel coordinates (row-major, last dimension varies fastest). -/
def ravelN (coords bases : List ℕ) : ℕ :=
  ravelLE coords.reverse bases.reverse

/-- Little-endian unravel on integers, with Python `%`/`//` semantics
(`Int.emod`/`Int.ediv`, which is what Lean's `%`/`/` on `ℤ` compute). -/
def unravelLEZ : ℤ → List ℕ → List ℤ
  | _, [] => []
  | i, b :: bs => (i % (b : ℤ)) :: unravelLEZ (i / (b : ℤ)) bs

/-- `EurostatJSONAdapter._unravel`, translated directly from the source:
Python ints are `ℤ`, `index % b` and `index //= b` over reversed bases,
then reverse the collected coordinates. -/
def unravel (index : ℤ) (bases : List ℕ) : List ℤ :=
  (unravelLEZ index bases.reverse).reverse

/-- Little-endian ravel on integers. -/
def ravelLEZ : List ℤ → List ℕ → ℤ
  | c :: cs, b :: bs => c + (b : ℤ) * ravelLEZ cs bs
  | _, _ => 0

/-- Re-ravel integer coordinates (row-major, last dimension fastest). -/
def ravelZ (coords : List ℤ) (bases : List ℕ) : ℤ :=
  ravelLEZ coords.reverse bases.reverse

theorem ravelLE_unravelLE (bs : List ℕ) (i : ℕ) :
    ravelLE (unravelLE i bs) bs = i % bs.prod := by
  induction bs generalizing i with
  | nil => simp [unravelLE, ravelLE, Nat.mod_one]
  | cons b bs ih =>
    simp only [unravelLE, ravelLE, List.prod_cons]
    rw [ih, Nat.mod_mul]

theorem unravelLE_forall₂ (bs : List ℕ) (hb : ∀ b ∈ bs, 1 ≤ b) (i : ℕ) :
    List.Forall₂ (· < ·) (unravelLE i bs) bs := by
  induction bs generalizing i with
  | nil => exact List.Forall₂.nil
  | cons b bs ih =>
    exact List.Forall₂.cons
      (Nat.mod_lt _ (hb b (List.mem_cons_self _ _)))
      (ih (fun x hx => hb x (List.mem_cons_of_mem _ hx)) _)

theorem ravelLE_lt (cs bs : List ℕ) (h : List.Forall₂ (· < ·) cs bs) :
    ravelLE cs bs < bs.prod := by
  induction h with
  | nil => simp [ravelLE]
  | @cons c b cs bs hcb _ ih =>
    simp only [ravelLE, List.prod_cons]
    calc c + b * ravelLE cs bs < b * (ravelLE cs bs + 1) := by
          rw [Nat.mul_succ]; omega
    _ ≤ b * bs.prod := Nat.mul_le_mul_left b ih

theorem unravelLE_ravelLE (cs bs : List ℕ) (h : List.Forall₂ (· < ·) cs bs) :
    unravelLE (ravelLE cs bs) bs = cs := by
  induction h with
  | nil => rfl
  | @cons c b cs bs hcb _ ih =>
    have hb : 0 < b := Nat.pos_of_ne_zero (by omega)
    simp only [ravelLE, unravelLE]
    rw [Nat.add_mul_mod_self_left, Nat.mod_eq_of_lt hcb,
      Nat.add_mul_div_left _ _ hb, Nat.div_eq_of_lt hcb, Nat.zero_add]
    exact congrArg (c :: ·) ih

theorem ravelN_unravelN (i : ℕ) (bases : List ℕ) :
    ravelN (unravelN i bases) bases = i % bases.prod := by
  unfold ravelN unravelN
  rw [List.reverse_reverse, ravelLE_unravelLE, List.prod_reverse]

theorem unravelN_forall₂ (bases : List ℕ) (hb : ∀ b ∈ bases, 1 ≤ b) (i : ℕ) :
    List.Forall₂ (· < ·) (unravelN i bases) bases := by
  have h := unravelLE_forall₂ bases.reverse (fun b h => hb b (List.mem_reverse.mp h)) i
  have := List.forall₂_reverse_iff.mpr h
  simpa [unravelN] using this

theorem ravelN_lt (cs bases : List ℕ) (h : List.Forall₂ (· < ·) cs bases) :
    ravelN cs bases < bases.prod := by
  have := ravelLE_lt cs.reverse bases.reverse (List.forall₂_reverse_iff.mpr h)
  simpa [ravelN, List.prod_reverse] using this

theorem unravelN_ravelN (cs bases : List ℕ) (h : List.Forall₂ (· < ·) cs bases) :
    unravelN (ravelN cs bases) bases = cs := by
  unfold unravelN ravelN
  rw [unravelLE_ravelLE _ _ (List.forall₂_reverse_iff.mpr h), List.reverse_reverse]

/-- Embed a natural-number coordinate list into the integers. -/
def castList (l : List ℕ) : List ℤ :=
  l.map (fun (k : ℕ) => (k : ℤ))

theorem unravelLEZ_natCast (n : ℕ) (bs : List ℕ) :
    unravelLEZ (n : ℤ) bs = castList (unravelLE n bs) := by
  induction bs generalizing n with
  | nil => rfl
  | cons b bs ih =>
    simp only [unravelLEZ, unravelLE, castList, List.map_cons]
    rw [← Int.natCast_mod, ← Int.natCast_div]
    exact congrArg _ (ih (n / b))

theorem ravelLEZ_natCast (cs : List ℕ) (bs : List ℕ) :
    ravelLEZ (castList cs) bs = (ravelLE cs bs : ℤ) := by
  induction cs generalizing bs with
  | nil => cases bs <;> simp [ravelLEZ, ravelLE, castList]
  | cons c cs ih =>
    cases bs with
    | nil => simp [ravelLEZ, ravelLE, castList]
    | cons b bs =>
      simp only [castList, List.map_cons, ravelLEZ, ravelLE]
      rw [show List.map (fun (k : ℕ) => (k : ℤ)) cs = castList cs from rfl, ih]
      push_cast
      ring

theorem unravel_natCast (n : ℕ) (bases : List ℕ) :
    unravel (n : ℤ) bases = castList (unravelN n bases) := by
  unfold unravel unravelN castList
  rw [unravelLEZ_natCast, castList, List.map_reverse]

theorem ravelZ_natCast (cs : List ℕ) (bases : List ℕ) :
    ravelZ (castList cs) bases = (ravelN cs bases : ℤ) := by
  unfold ravelZ ravelN
  rw [show (castList cs).reverse = castList cs.reverse by
    simp [castList, List.map_reverse], ravelLEZ_natCast]

/-- C2: for bases all at least 1 and any linear index `i` with
`0 ≤ i < ∏ bases`, re-raveling the coordinates produced by `_unravel`
yields `i` again, and `_unravel` is a bijection from the declared index
space onto the Cartesian product of the coordinate ranges. -/
theorem unravel_ravel_bijection (bases : List ℕ) (hb : ∀ b ∈ bases, 1 ≤ b) :
    (∀ i : ℤ, 0 ≤ i → i < (bases.prod : ℤ) → ravelZ (unravel i bases) bases = i) ∧
    Set.BijOn (fun i => unravel i bases) (Set.Ico (0 : ℤ) (bases.prod : ℤ))
      {cs : List ℤ | List.Forall₂ (fun (c : ℤ) (b : ℕ) => 0 ≤ c ∧ c < (b : ℤ)) cs bases} := by
  have roundtrip : ∀ i : ℤ, 0 ≤ i → i < (bases.prod : ℤ) →
      ravelZ (unravel i bases) bases = i := by
    intro i h0 hlt
    obtain ⟨n, rfl⟩ := Int.eq_ofNat_of_zero_le h0
    rw [unravel_natCast, ravelZ_natCast, ravelN_unravelN]
    have hn : n < bases.prod := by exact_mod_cast hlt
    rw [Nat.mod_eq_of_lt hn]
  have key : ∀ (cs : List ℤ) (bs : List ℕ),
      List.Forall₂ (fun (c : ℤ) (b : ℕ) => 0 ≤ c ∧ c < (b : ℤ)) cs bs →
      castList (cs.map Int.toNat) = cs ∧
      List.Forall₂ (· < ·) (cs.map Int.toNat) bs := by
    intro cs bs h
    induction h with
    | nil => exact ⟨rfl, List.Forall₂.nil⟩
    | @cons c b cs bs hcb _ ih =>
      refine ⟨?_, List.Forall₂.cons ?_ ih.2⟩
      · simp only [castList, List.map_cons] at ih ⊢
        rw [Int.toNat_of_nonneg hcb.1]
        exact congrArg _ ih.1
      · have h1 := hcb.1
        have h2 := hcb.2
        omega
  refine ⟨roundtrip, ?_, ?_, ?_⟩
  · intro i hi
    simp only [Set.mem_Ico] at hi
    obtain ⟨n, rfl⟩ := Int.eq_ofNat_of_zero_le hi.1
    simp only [Set.mem_setOf_eq, unravel_natCast, castList]
    rw [List.forall₂_map_left_iff]
    exact (unravelN_forall₂ bases hb n).imp
      (fun a b hab => ⟨Int.natCast_nonneg a, by exact_mod_cast hab⟩)
  · intro i hi j hj heq
    simp only [Set.mem_Ico] at hi hj
    simp only at heq
    calc i = ravelZ (unravel i bases) bases := (roundtrip i hi.1 hi.2).symm
    _ = ravelZ (unravel j bases) bases := by rw [heq]
    _ = j := roundtrip j hj.1 hj.2
  · intro cs hcs
    simp only [Set.mem_setOf_eq] at hcs
    obtain ⟨hmap, hlt⟩ := key cs bases hcs
    refine ⟨((ravelN (cs.map Int.toNat) bases : ℕ) : ℤ), ?_, ?_⟩
    · simp only [Set.mem_Ico]
      exact ⟨Int.natCast_nonneg _, by exact_mod_cast ravelN_lt _ _ hlt⟩
    · show unravel _ bases = cs
      rw [unravel_natCast, unravelN_ravelN _ _ hlt, hmap]

/-- C2 witness: the round-trip law applied at bases `[2, 3]`, index `5`. -/
theorem unravel_ravel_bijection_witness :
    (∀ b ∈ [2, 3], 1 ≤ b) ∧ ravelZ (unravel 5 [2, 3]) [2, 3] = 5 :=
  ⟨by decide, (unravel_ravel_bijection [2, 3] (by decide)).1 5 (by decide) (by decide)⟩

/-! ## Compact (dimension-indexed) JSON reader (`EurostatJSONAdapter`) -/

/-- JSON scalar values, as they appear in record and value maps. -/
inductive JVal where
  | num (q : ℚ)
  | str (s : String)
  | null
deriving DecidableEq

/-- The fixed canonical dimension tuple `("unit", "sex", "age", "geo", "time")`
iterated by `_dimension_order`. -/
def canonicalDims : List String :=
  ["unit", "sex", "age", "geo", "time"]

/-- `EurostatJSONAdapter._dimension_order`, translated from the source:
`found = [k for k in ("unit","sex","age","geo","time") if k in dim]`,
returning `found or (default order)`.  `dimKeys` is the dimension object's
key list. -/
def dimension_order (dimKeys : List String) : List String :=
  let found := canonicalDims.filter (fun k => k ∈ dimKeys)
  if found.isEmpty then canonicalDims else found

/-- Modelled from the spec (the spec-side reading of C5, for comparison with
`dimension_order`): "use the explicit key order found in `dimension`
restricted to {unit, sex, age, geo, time}, and fall back to the fixed order
(unit, sex, age, geo, time) if the dimension object omits ordering
information" — i.e. keep the keys of the dimension object in their own
order, restricted to the five names. -/
def specDimensionOrder (dimKeys : List String) : List String :=
  let found := dimKeys.filter (fun k => k ∈ canonicalDims)
  if found.isEmpty then canonicalDims else found

/-- `maps[name].get(c, str(c))`: label of coordinate `c` in one dimension's
index→label map, falling back to the decimal form of `c`. -/
def lookupLabel (m : List (ℤ × String)) (c : ℤ) : String :=
  match m.lookup c with
  | some s => s
  | none => toString c

/-- One output record of `_rows_from_values`: the per-dimension labels in
dimension order, plus the observation value (kept as-is). -/
structure CompactRow where
  fields : List (String × String)
  value : JVal
deriving DecidableEq

/-- The record built for one linear index: zip the dimension order with the
unraveled coordinates and look every coordinate's label up. -/
def compactRec (order : List String) (maps : String → List (ℤ × String))
    (coord : List ℤ) (v : JVal) : CompactRow :=
  ⟨(order.zip coord).map (fun p => (p.1, lookupLabel (maps p.1) p.2)), v⟩

/-- `EurostatJSONAdapter._rows_from_values`: for each `(key, value)` entry,
parse the key with `int(...)` (skipping entries whose key does not parse),
unravel it over the base sizes and emit one labelled row. -/
def rows_from_values (values : List (String × JVal)) (order : List String)
    (maps : String → List (ℤ × String)) (bases : List ℕ) : List CompactRow :=
  values.filterMap (fun kv =>
    (parseIntStr kv.1).map (fun lin => compactRec order maps (unravel lin bases) kv.2))

theorem length_filterMap_eq_countP {α : Type} {β : Type} (f : α → Option β) (l : List α) :
    (l.filterMap f).length = (l.filter (fun a => (f a).isSome)).length := by
  induction l with
  | nil => rfl
  | cons a l ih =>
    cases h : f a <;> simp [List.filterMap_cons, List.filter_cons, h, ih]

/-- C5 counterexample: a dimension object whose keys appear in the order
(time, unit).  `_dimension_order` returns (unit, time) — the fixed canonical
order — not the explicit key order (time, unit) that the claim requires. -/
theorem dimension_order_ignores_key_order :
    dimension_order ["time", "unit"] = ["unit", "time"] ∧
    specDimensionOrder ["time", "unit"] = ["time", "unit"] ∧
    dimension_order ["time", "unit"] ≠ specDimensionOrder ["time", "unit"] := by
  refine ⟨?_, ?_, ?_⟩ <;> decide

/-- C5 (amended): the reader orders dimensions in the fixed canonical order
(unit, sex, age, geo, time) restricted to the names present among the
dimension object's keys — never in the keys' own order — and falls back to
the full fixed order exactly when none of the five names is a key. -/
theorem dimension_order_canonical (dimKeys : List String) :
    (dimension_order dimKeys).Sublist canonicalDims ∧
    (canonicalDims.filter (fun k => k ∈ dimKeys) ≠ [] →
      dimension_order dimKeys = canonicalDims.filter (fun k => k ∈ dimKeys)) ∧
    (canonicalDims.filter (fun k => k ∈ dimKeys) = [] →
      dimension_order dimKeys = canonicalDims) ∧
    (∀ k, k ∈ dimension_order dimKeys → k ∈ canonicalDims) := by
  have hdef : dimension_order dimKeys =
      if (canonicalDims.filter (fun k => k ∈ dimKeys)).isEmpty then canonicalDims
      else canonicalDims.filter (fun k => k ∈ dimKeys) := rfl
  by_cases h : (canonicalDims.filter (fun k => k ∈ dimKeys)).isEmpty
  · have he : canonicalDims.filter (fun k => k ∈ dimKeys) = [] := List.isEmpty_iff.mp h
    rw [hdef, if_pos h]
    exact ⟨List.Sublist.refl _, fun hne => absurd he hne, fun _ => rfl, fun k hk => hk⟩
  · have hne : canonicalDims.filter (fun k => k ∈ dimKeys) ≠ [] := by
      intro he
      exact h (List.isEmpty_iff.mpr he)
    rw [hdef, if_neg h]
    exact ⟨List.filter_sublist _, fun _ => rfl, fun he => absurd he hne,
      fun k hk => (List.mem_filter.mp hk).1⟩

/-- C5 witness: a dimension object with the single key `geo` gets the
restricted canonical order. -/
theorem dimension_order_canonical_witness :
    canonicalDims.filter (fun k => k ∈ (["geo"] : List String)) ≠ [] ∧
    dimension_order ["geo"] = canonicalDims.filter (fun k => k ∈ (["geo"] : List String)) :=
  ⟨by decide, (dimension_order_canonical ["geo"]).2.1 (by decide)⟩

/-- C10: for any non-negative integer key — in range or not — unraveling
aliases it onto in-range coordinates (`ravel (unravel i) = i mod ∏ bases`,
coordinates below their bases), and `_rows_from_values` does not reject such
a key: it emits exactly one row for it, built from those in-range
coordinates; precisely the entries with non-integer keys are skipped. -/
theorem unravel_aliasing_rows (i : ℕ) (bases : List ℕ) (hb : ∀ b ∈ bases, 1 ≤ b)
    (values : List (String × JVal)) (order : List String)
    (maps : String → List (ℤ × String)) (s : String) (v : JVal)
    (hs : parseIntStr s = some (i : ℤ)) :
    ravelN (unravelN i bases) bases = i % bases.prod ∧
    List.Forall₂ (fun (c : ℕ) (b : ℕ) => c < b) (unravelN i bases) bases ∧
    rows_from_values ((s, v) :: values) order maps bases =
      compactRec order maps (castList (unravelN i bases)) v ::
        rows_from_values values order maps bases ∧
    (rows_from_values values order maps bases).length =
      (values.filter (fun kv => (parseIntStr kv.1).isSome)).length := by
  refine ⟨ravelN_unravelN i bases, unravelN_forall₂ bases hb i, ?_, ?_⟩
  · simp only [rows_from_values, List.filterMap_cons, hs, Option.map_some']
    rw [unravel_natCast]
  · rw [rows_from_values, length_filterMap_eq_countP]
    simp only [Option.isSome_map']

/-- C10 witness: key `"7"` against bases `[2, 3]` (index space of size 6). -/
theorem unravel_aliasing_rows_witness :
    parseIntStr "7" = some ((7 : ℕ) : ℤ) ∧ (∀ b ∈ [2, 3], 1 ≤ b) ∧
    ravelN (unravelN 7 [2, 3]) [2, 3] = 7 % List.prod [2, 3] :=
  ⟨by decide, by decide,
    (unravel_aliasing_rows 7 [2, 3] (by decide) [] ["sex", "time"]
      (fun _ => []) "7" (JVal.num 1) (by decide)).1⟩

/-- C9: `actual_countries()` is the catalog minus the fixed aggregate set:
no aggregate member appears in it, and its size is the catalog size minus
the aggregate-set size (47 = 56 - 9). -/
theorem actual_countries_excludes_aggregates :
    (∀ a ∈ excludedAggregates, a ∉ Region.actual_countries) ∧
    Region.actual_countries.length = allRegions.length - excludedAggregates.length ∧
    allRegions.length = 56 ∧ excludedAggregates.length = 9 ∧
    Region.actual_countries.length = 47 := by
  refine ⟨?_, ?_, ?_, ?_, ?_⟩ <;> decide

/-- C9 witness: the EU-wide aggregate `EU28` is in the aggregate set and
absent from `actual_countries()`. -/
theorem actual_countries_excludes_aggregates_witness :
    Region.EU28 ∈ excludedAggregates ∧ Region.EU28 ∉ Region.actual_countries :=
  ⟨by decide, actual_countries_excludes_aggregates.1 Region.EU28 (by decide)⟩

/-! ## Delimited reader (`CSVReader.read`) -/

/-- A raw wide delimited file: the composite first-column header, the year
column headers, and one `(composite cell, year cells)` pair per data row. -/
structure WideTable where
  compositeHeader : String
  years : List String
  rows : List (String × List String)
deriving DecidableEq

/-- One melted (long-form) row before value cleaning. -/
structure MeltRow where
  unit : String
  sex : String
  age : String
  geo : String
  time : String
  raw : String
deriving DecidableEq

/-- One normalized output row of the delimited reader. -/
structure CsvRow where
  unit : String
  sex : String
  age : String
  geo : String
  time : String
  value : ℚ
deriving DecidableEq

/-- Part `i` of a split composite cell; missing positions are padded
(pandas pads with NaN; no claim looks at padded dimensions). -/
def dimAt (parts : List String) (i : ℕ) : String :=
  parts.getD i ""

/-- The split + unpivot steps of `CSVReader.read`: one output row per
(year column × data row) holding the four split dimensions, the year header
as `time`, and the raw value cell. -/
def meltCSV (t : WideTable) : List MeltRow :=
  t.years.enum.flatMap (fun iy =>
    t.rows.map (fun rc =>
      let p := pySplit rc.1 ','
      ⟨dimAt p 0, dimAt p 1, dimAt p 2, dimAt p 3, iy.2, rc.2.getD iy.1 ""⟩))

/-- `.str.replace(":", "").str.replace(" ", "")` on a raw value cell. -/
def stripMarker (s : String) : String :=
  removeChar ' ' (removeChar ':' s)

/-- `CSVReader.read`: melt, strip the missing-value marker and spaces from
the value text, coerce to numeric and drop non-parsing rows (`dropna`).
The function is total: row-level failures never raise. -/
def csvRead (t : WideTable) : List CsvRow :=
  (meltCSV t).filterMap (fun m =>
    (parseNumeric (stripMarker m.raw)).map
      (fun q => ⟨m.unit, m.sex, m.age, m.geo, m.time, q⟩))

theorem length_filter_lt_of_mem_false {α : Type} (l : List α) (p : α → Bool) (a : α)
    (ha : a ∈ l) (hpa : p a = false) : (l.filter p).length < l.length := by
  induction l with
  | nil => cases ha
  | cons b l ih =>
    rw [List.filter_cons]
    rcases List.mem_cons.mp ha with rfl | hmem
    · rw [hpa]
      simp only [Bool.false_eq_true, if_false, List.length_cons]
      exact Nat.lt_succ_of_le (List.length_filter_le _ _)
    · cases hpb : p b
      · simp only [Bool.false_eq_true, if_false, List.length_cons]
        exact Nat.lt_succ_of_le (List.length_filter_le _ _)
      · simp only [if_true, List.length_cons]
        exact Nat.succ_lt_succ (ih hmem)

/-- C3: the delimited reader strips the literal `:` marker and all spaces
from each raw value cell and parses the rest as a number.  A row appears in
the output exactly when its cleaned cell parses, with exactly the parsed
value (never a default 0), so a `:` cell — stripped to the empty string,
which does not parse — is dropped entirely and strictly shrinks the output;
`csvRead` is total, so the dropping is not reported as an error. -/
theorem csv_marker_rows_dropped (t : WideTable) (r : CsvRow) (hr : r ∈ csvRead t) :
    (stripMarker ":" = "" ∧ parseNumeric "" = none) ∧
    (∃ m ∈ meltCSV t, parseNumeric (stripMarker m.raw) = some r.value ∧
      m.unit = r.unit ∧ m.sex = r.sex ∧ m.age = r.age ∧ m.geo = r.geo ∧ m.time = r.time) ∧
    (csvRead t).length =
      ((meltCSV t).filter (fun m => (parseNumeric (stripMarker m.raw)).isSome)).length ∧
    (∀ m ∈ meltCSV t, m.raw = ":" → (csvRead t).length < (meltCSV t).length) := by
  refine ⟨⟨by decide, by decide⟩, ?_, ?_, ?_⟩
  · rcases List.mem_filterMap.mp hr with ⟨m, hm, hmap⟩
    cases ho : parseNumeric (stripMarker m.raw) with
    | none => rw [ho] at hmap; cases hmap
    | some q =>
      rw [ho] at hmap
      simp only [Option.map_some', Option.some_inj] at hmap
      refine ⟨m, hm, ?_, ?_, ?_, ?_, ?_, ?_⟩ <;> rw [← hmap] <;> first | exact ho | rfl
  · rw [csvRead, length_filterMap_eq_countP]
    simp only [Option.isSome_map']
  · intro m hm hraw
    have hfail : (fun m => (parseNumeric (stripMarker m.raw)).isSome) m = false := by
      show (parseNumeric (stripMarker m.raw)).isSome = false
      rw [hraw]
      decide
    calc (csvRead t).length
        = ((meltCSV t).filter (fun m => (parseNumeric (stripMarker m.raw)).isSome)).length := by
          rw [csvRead, length_filterMap_eq_countP]
          simp only [Option.isSome_map']
    _ < (meltCSV t).length := length_filter_lt_of_mem_false _ _ m hm hfail

/-- A two-year sample table whose second value cell is the `:` marker. -/
def csvSample : WideTable :=
  ⟨"unit,sex,age,geo\\time", ["2019", "2020"], [("YR,M,Y_LT1,PT", ["78", ":"])]⟩

/-- C3 witness: on the sample, the parsed row is kept and the `:` row makes
the output strictly shorter than the melted table. -/
theorem csv_marker_rows_dropped_witness :
    (⟨"YR", "M", "Y_LT1", "PT", "2019", mkRat 78 1⟩ : CsvRow) ∈ csvRead csvSample ∧
    (csvRead csvSample).length < (meltCSV csvSample).length :=
  ⟨by decide,
    (csv_marker_rows_dropped csvSample ⟨"YR", "M", "Y_LT1", "PT", "2019", mkRat 78 1⟩
        (by decide)).2.2.2
      ⟨"YR", "M", "Y_LT1", "PT", "2020", ":"⟩ (by decide) (by decide)⟩

/-! ## Step 4 value parsing in `clean_data`
(`.str.extract(r"(\d+\.?\d*)")` followed by `pd.to_numeric`) -/

/-- The regex `\d+\.?\d*` matched greedily at a position that starts with a
digit: maximal digit run, optional single dot, maximal digit run. -/
def numToken (l : List Char) : List Char :=
  let ds := l.takeWhile Char.isDigit
  match l.dropWhile Char.isDigit with
  | '.' :: r2 => ds ++ '.' :: r2.takeWhile Char.isDigit
  | _ => ds

/-- First match of `\d+\.?\d*` anywhere in the character list — the leading
numeric substring: scan to the first digit, then match greedily there. -/
def findNum : List Char → Option (List Char)
  | [] => none
  | c :: cs => if c.isDigit then some (numToken (c :: cs)) else findNum cs

/-- Numeric value of a matched token `digits[.digits*]`. -/
def tokenValue (tok : List Char) : ℚ :=
  let ip := tok.takeWhile (fun c => c ≠ '.')
  let fp := (tok.dropWhile (fun c => c ≠ '.')).drop 1
  mkRat (digitsToNat (ip ++ fp)) (10 ^ fp.length)

/-- Step 4 of `clean_data` on one stringified value cell: extract the first
`\d+\.?\d*` match and coerce it to a number; no match means null. -/
def valueParse (s : String) : Option ℚ :=
  (findNum s.data).map tokenValue

theorem findNum_append (a b : List Char) (ha : ∀ c ∈ a, ¬ c.isDigit) :
    findNum (a ++ b) = findNum b := by
  induction a with
  | nil => rfl
  | cons c cs ih =>
    simp only [List.cons_append, findNum]
    rw [if_neg (by simpa using ha c (List.mem_cons_self c cs))]
    exact ih (fun x hx => ha x (List.mem_cons_of_mem _ hx))

theorem findNum_none (l : List Char) (h : ∀ c ∈ l, ¬ c.isDigit) : findNum l = none := by
  induction l with
  | nil => rfl
  | cons c cs ih =>
    simp only [findNum]
    rw [if_neg (by simpa using h c (List.mem_cons_self c cs)),
      ih (fun x hx => h x (List.mem_cons_of_mem _ hx))]

/-- C7: step 4 parses a stringified value cell by extracting the leading
numeric substring matching `digits[.digits]` and coercing it: any leading
run of non-digit noise is skipped (and trailing noise is ignored by the
greedy match, witnessed concretely), a cell with no digit at all becomes
null rather than an error, a leading sign is not part of the match (so
`-78.6` parses to positive 78.6), and scientific notation is not honoured
(`2e3` parses to 2, not 2000). -/
theorem value_extract_leading_number (pre s : String) (hpre : ∀ c ∈ pre.data, ¬ c.isDigit) :
    valueParse (pre ++ s) = valueParse s ∧
    ((∀ c ∈ s.data, ¬ c.isDigit) → valueParse s = none) ∧
    valueParse "-78.6" = some (mkRat 786 10) ∧
    valueParse "-78.6" ≠ some (-(mkRat 786 10)) ∧
    valueParse "2e3" = some 2 ∧ valueParse "2e3" ≠ some 2000 ∧
    valueParse "ab78.6kg" = some (mkRat 786 10) ∧
    (mkRat 786 10 : ℚ) = 786 / 10 := by
  refine ⟨?_, ?_, by decide, by decide, by decide, by decide, by decide, ?_⟩
  · unfold valueParse
    rw [String.data_append, findNum_append _ _ hpre]
  · intro h
    unfold valueParse
    rw [findNum_none _ h]
    rfl
  · rw [Rat.mkRat_eq_div]
    norm_num

/-- C7 witness: noise-skipping applied at `pre = "kg"`, `s = "78.6"`. -/
theorem value_extract_leading_number_witness :
    (∀ c ∈ ("kg" : String).data, ¬ c.isDigit) ∧
    valueParse ("kg" ++ "78.6") = valueParse "78.6" :=
  ⟨by decide, (value_extract_leading_number "kg" "78.6" (by decide)).1⟩

/-! ## Flat JSON record reader (`EurostatJSONAdapter._read_records_list`) -/

/-- Keys of a record list in first-appearance order (pandas DataFrame
column order), lowercased afterwards (`df.columns = [c.lower() ...]`). -/
def recordCols (records : List (List (String × JVal))) : List String :=
  ((records.flatMap (fun rec => rec.map Prod.fst)).eraseDups).map pyLower

/-- Accepted time-like keys, in priority order. -/
def timeCandidates : List String :=
  ["time", "year", "date"]

/-- Accepted geo aliases, in priority order. -/
def geoCandidates : List String :=
  ["geo", "country", "region", "geo_code", "geocode", "nuts_code"]

/-- Accepted value aliases, in priority order. -/
def valueCandidates : List String :=
  ["value", "values", "obs_value", "obsvalue", "life_expectancy",
   "lifeexpectancy", "le", "val"]

/-- `pick(cols, *candidates)`: the first candidate present in the columns. -/
def pick (cols : List String) (cands : List String) : Option String :=
  cands.find? (fun c => cols.contains c)

/-- Column names after the standardizing rename
(`time_col→time`, `geo_col→geo`, `value_col→value`). -/
def renamedCols (cols : List String) (tc : String) (gc vc : Option String) : List String :=
  cols.map (fun c =>
    if c = tc then "time"
    else if gc = some c then "geo"
    else if vc = some c then "value"
    else c)

/-- Columns after the aliasing phase: rename, then — when both `year` and
`time` survive — fill `time` from `year` per row and drop the `year`
column. -/
def colsAfterAliasing (cols : List String) (tc : String) : List String :=
  let renamed := renamedCols cols tc (pick cols geoCandidates) (pick cols valueCandidates)
  if renamed.contains "year" && renamed.contains "time" then
    renamed.filter (fun c => c ≠ "year")
  else renamed

/-- The six canonical fields required of record input. -/
def neededFields : List String :=
  ["unit", "sex", "age", "geo", "time", "value"]

/-- Code-point lexicographic order on character lists (the order Python
`sorted` uses on strings). -/
def lexLe : List Char → List Char → Bool
  | [], _ => true
  | _ :: _, [] => false
  | a :: as, b :: bs =>
    if a.toNat < b.toNat then true
    else if b.toNat < a.toNat then false
    else lexLe as bs

/-- Lexicographic order on strings. -/
def strLe (a b : String) : Bool :=
  lexLe a.data b.data

/-- Insert into a sorted list of strings (helper for `sortStrings`). -/
def insertSorted (a : String) : List String → List String
  | [] => [a]
  | b :: t => if strLe a b then a :: b :: t else b :: insertSorted a t

/-- Python `sorted` on column names (insertion sort; stable and ordered). -/
def sortStrings (l : List String) : List String :=
  l.foldr insertSorted []

/-- Errors of the record-list reader: the early time-key check (which names
only the accepted time keys) and the later missing-fields check (which
names the missing fields and the present fields, both sorted). -/
inductive RecordsErr where
  | missingTimeKey (candidates : List String)
  | missingFields (missing : List String) (present : List String)
deriving DecidableEq

/-- Cell of a record under a lowercased column name: the first key whose
lowercase form matches; absent keys are NaN. -/
def cellOf (rec : List (String × JVal)) (col : String) : JVal :=
  match rec.find? (fun kv => pyLower kv.1 == col) with
  | some kv => kv.2
  | none => JVal.null

/-- Python `int(...)` truncation of a rational toward zero. -/
def truncRat (q : ℚ) : ℤ :=
  q.num.tdiv (q.den : ℤ)

/-- `_norm_time`: numeric values render as the integer's string form
(`2019.0 → "2019"`), strings are tried as floats first and fall back to
themselves, and NaN renders as the empty string. -/
def normTime (x : JVal) : String :=
  match x with
  | .num q => toString (truncRat q)
  | .str s =>
    match parseNumeric s with
    | some q => toString (truncRat q)
    | none => s
  | .null => ""

/-- `pd.to_numeric(x, errors="coerce")` on a JSON scalar cell. -/
def toNumericJ (x : JVal) : Option ℚ :=
  match x with
  | .num q => some q
  | .str s => parseNumeric s
  | .null => none

/-- One normalized output row of the record-list reader. -/
structure JRow where
  unit : JVal
  sex : JVal
  age : JVal
  geo : JVal
  time : String
  value : ℚ
deriving DecidableEq

/-- The time cell of one record: the picked time-like column, falling back
to the `year` cell when the year-merge applies and `time` is NaN. -/
def timeCellOf (rec : List (String × JVal)) (tc : String) (merge : Bool) : JVal :=
  let t := cellOf rec tc
  if merge then
    match t with
    | .null => cellOf rec "year"
    | v => v
  else t

/-- `EurostatJSONAdapter._read_records_list`: lowercase the columns, pick
the time/geo/value columns, rename them, merge `year` into `time` when both
survive, fail when a needed field is still missing (naming missing and
present fields), else normalize time, coerce value and drop rows whose
value does not coerce. -/
def read_records_list (records : List (List (String × JVal))) :
    Except RecordsErr (List JRow) :=
  let cols := recordCols records
  match pick cols timeCandidates with
  | none => .error (.missingTimeKey timeCandidates)
  | some tc =>
    let gcol := pick cols geoCandidates
    let vcol := pick cols valueCandidates
    let merge := (renamedCols cols tc gcol vcol).contains "year" &&
      (renamedCols cols tc gcol vcol).contains "time"
    let cols3 := colsAfterAliasing cols tc
    let missing := neededFields.filter (fun c => !(cols3.contains c))
    if missing.isEmpty then
      .ok (records.filterMap (fun rec =>
        (toNumericJ (cellOf rec (vcol.getD "value"))).map (fun q =>
          ⟨cellOf rec "unit", cellOf rec "sex", cellOf rec "age",
           cellOf rec (gcol.getD "geo"), normTime (timeCellOf rec tc merge), q⟩)))
    else .error (.missingFields (sortStrings missing) (sortStrings cols3))

/-- Discriminator: true exactly on `missingFields` results. -/
def isMissingFieldsErr : Except RecordsErr (List JRow) → Bool
  | .error (.missingFields _ _) => true
  | _ => false

/-- A record set with unit, sex, age, geo and value but no time-like key. -/
def sampleNoTime : List (List (String × JVal)) :=
  [[("unit", JVal.str "YR"), ("sex", JVal.str "M"), ("age", JVal.str "Y1"),
    ("geo", JVal.str "PT"), ("value", JVal.num 78)]]

/-- C4 counterexample: with the time-like field absent, the reader raises
the time-specific error (naming only the accepted time keys), not the
MissingFields error naming missing and present fields that the claim
requires for every absent canonical field. -/
theorem records_missing_time_not_missing_fields :
    read_records_list sampleNoTime =
      Except.error (RecordsErr.missingTimeKey ["time", "year", "date"]) ∧
    isMissingFieldsErr (read_records_list sampleNoTime) = false := by
  exact ⟨rfl, rfl⟩

theorem pick_mem_cols {cols cands : List String} {tc : String}
    (h : pick cols cands = some tc) : cols.contains tc = true := by
  unfold pick at h
  exact List.find?_some h

/-- C4 (amended): when the time-like field is absent the reader fails with
the time-specific error naming only the accepted time keys — never the
MissingFields error; when a time-like field is present but some other
canonical field is still absent after aliasing, the reader fails with
MissingFields naming exactly the (sorted) missing fields and the (sorted)
columns that were actually present, and `time` itself is never among the
missing fields reported there. -/
theorem records_missing_fields_report (records : List (List (String × JVal))) :
    (pick (recordCols records) timeCandidates = none →
      read_records_list records = Except.error (RecordsErr.missingTimeKey timeCandidates) ∧
      isMissingFieldsErr (read_records_list records) = false) ∧
    (∀ tc, pick (recordCols records) timeCandidates = some tc →
      neededFields.filter
          (fun c => !((colsAfterAliasing (recordCols records) tc).contains c)) ≠ [] →
      read_records_list records =
        Except.error (RecordsErr.missingFields
          (sortStrings (neededFields.filter
            (fun c => !((colsAfterAliasing (recordCols records) tc).contains c))))
          (sortStrings (colsAfterAliasing (recordCols records) tc))) ∧
      "time" ∉ neededFields.filter
          (fun c => !((colsAfterAliasing (recordCols records) tc).contains c))) := by
  constructor
  · intro hnone
    simp only [read_records_list]
    rw [hnone]
    exact ⟨rfl, rfl⟩
  · intro tc htc hmiss
    have hempty : (neededFields.filter
        (fun c => !((colsAfterAliasing (recordCols records) tc).contains c))).isEmpty = false := by
      cases hh : (neededFields.filter
          (fun c => !((colsAfterAliasing (recordCols records) tc).contains c))).isEmpty
      · rfl
      · exact absurd (List.isEmpty_iff.mp hh) hmiss
    constructor
    · simp only [read_records_list]
      rw [htc]
      simp only [hempty, Bool.false_eq_true, if_false]
    · intro hmem
      have htcmem : "time" ∈ colsAfterAliasing (recordCols records) tc := by
        have hc := pick_mem_cols htc
        have htcin : tc ∈ recordCols records := by
          simpa using hc
        have hren : "time" ∈ renamedCols (recordCols records) tc
            (pick (recordCols records) geoCandidates)
            (pick (recordCols records) valueCandidates) := by
          refine List.mem_map.mpr ⟨tc, htcin, ?_⟩
          rw [if_pos rfl]
        unfold colsAfterAliasing
        cases hmerge : ((renamedCols (recordCols records) tc
            (pick (recordCols records) geoCandidates)
            (pick (recordCols records) valueCandidates)).contains "year" &&
          (renamedCols (recordCols records) tc
            (pick (recordCols records) geoCandidates)
            (pick (recordCols records) valueCandidates)).contains "time")
        · simp only [hmerge, Bool.false_eq_true, if_false]
          exact hren
        · simp only [hmerge, if_true]
          exact List.mem_filter.mpr ⟨hren, by decide⟩
      have hfalse := (List.mem_filter.mp hmem).2
      simp only [Bool.not_eq_eq_eq_not, Bool.not_true] at hfalse
      have hnotmem : "time" ∉ colsAfterAliasing (recordCols records) tc := by
        intro hmm
        have hcon : (colsAfterAliasing (recordCols records) tc).contains "time" = true := by
          simpa using hmm
        rw [hcon] at hfalse
        cases hfalse
      exact hnotmem htcmem

/-- A record set whose records lack only the `unit` field. -/
def sampleMissingUnit : List (List (String × JVal)) :=
  [[("geo", JVal.str "PT"), ("time", JVal.str "2019"), ("value", JVal.num 78),
    ("sex", JVal.str "M"), ("age", JVal.str "Y1")]]

/-- C4 witness: the missing-fields branch applied to a record set missing
`unit`. -/
theorem records_missing_fields_report_witness :
    neededFields.filter
        (fun c => !((colsAfterAliasing (recordCols sampleMissingUnit) "time").contains c)) ≠ [] ∧
    read_records_list sampleMissingUnit =
      Except.error (RecordsErr.missingFields
        (sortStrings (neededFields.filter
          (fun c => !((colsAfterAliasing (recordCols sampleMissingUnit) "time").contains c))))
        (sortStrings (colsAfterAliasing (recordCols sampleMissingUnit) "time"))) :=
  ⟨by decide,
    ((records_missing_fields_report sampleMissingUnit).2 "time" (by decide) (by decide)).1⟩

/-! ## Target-region resolution (`clean_data` alias path and `main`) -/

/-- The alias path in `clean_data`: `Region[country]`.  On failure Python
raises a bare `KeyError` whose payload is only the unknown key. -/
def cleanResolveCountry (country : String) : Except String Region :=
  match regionOfName country with
  | some r => Except.ok r
  | none => Except.error country

/-- The `ValueError` data built by `main` for an invalid country: the
offending input plus the enumeration of valid (non-aggregate) codes that
the message formats in chunks. -/
structure InvalidCountry where
  offending : String
  validCodes : List String
deriving DecidableEq

/-- `main`'s country validation: `Region[args.country]` with the KeyError
handler that raises a ValueError enumerating `Region.actual_countries()`. -/
def mainResolveCountry (s : String) : Except InvalidCountry Region :=
  match regionOfName s with
  | some r => Except.ok r
  | none => Except.error ⟨s, Region.actual_countries.map Region.value⟩

/-- Contiguous-substring test on character lists. -/
def containsSubChars (needle : List Char) : List Char → Bool
  | [] => needle.isEmpty
  | c :: t => needle.isPrefixOf (c :: t) || containsSubChars needle t

/-- Contiguous-substring test on strings. -/
def strContainsSub (hay needle : String) : Bool :=
  containsSubChars needle.data hay.data

/-- C6 counterexample: resolving the alias parameter `"XX"` through
`clean_data` fails with a KeyError whose entire payload is the string
`"XX"`; the valid code `PT` (like every other valid code) does not occur in
it, so this failure does not enumerate the valid non-aggregate codes as the
claim requires of every resolution path. -/
theorem clean_alias_error_no_code_list :
    cleanResolveCountry "XX" = Except.error "XX" ∧
    strContainsSub "XX" "PT" = false ∧
    "PT" ∈ Region.actual_countries.map Region.value := by
  exact ⟨rfl, rfl, by decide⟩

/-- C6 (amended): an unresolvable target-region input fails on both paths,
but only the CLI path enumerates the valid codes: `main` raises a
ValueError carrying the offending input together with every non-aggregate
code, while `clean_data`'s alias lookup raises a bare KeyError carrying
only the offending input.  The enumerated list is exactly the non-aggregate
catalog: it contains no aggregate's code. -/
theorem invalid_region_reports (s : String) (h : regionOfName s = none) :
    mainResolveCountry s = Except.error ⟨s, Region.actual_countries.map Region.value⟩ ∧
    cleanResolveCountry s = Except.error s ∧
    (∀ r ∈ excludedAggregates, r.value ∉ Region.actual_countries.map Region.value) ∧
    "PT" ∈ Region.actual_countries.map Region.value := by
  refine ⟨?_, ?_, by decide, by decide⟩
  · unfold mainResolveCountry
    rw [h]
  · unfold cleanResolveCountry
    rw [h]

/-- C6 witness: the amended behaviour at the unknown input `"XX"`. -/
theorem invalid_region_reports_witness :
    regionOfName "XX" = none ∧
    mainResolveCountry "XX" =
      Except.error ⟨"XX", Region.actual_countries.map Region.value⟩ :=
  ⟨by decide, (invalid_region_reports "XX" (by decide)).1⟩

/-! ## DataFrame model and the cleaning pipeline (`cleaning.py`) -/

/-- A pandas cell: a string, a float (as a rational), or NaN/None. -/
inductive Cell where
  | str (s : String)
  | num (q : ℚ)
  | null
deriving DecidableEq

/-- A DataFrame: ordered column labels and positional rows.  Cells beyond a
row's length read as NaN. -/
structure DF where
  cols : List String
  rows : List (List Cell)
deriving DecidableEq

/-- Position of a column label (first occurrence). -/
def DF.colIdx (df : DF) (c : String) : Option ℕ :=
  df.cols.findIdx? (fun x => x == c)

/-- Positions of the requested labels among `cols`; `none` when one is
missing. -/
def idxList (cols : List String) : List String → Option (List ℕ)
  | [] => some []
  | c :: cs =>
    match cols.findIdx? (fun x => x == c), idxList cols cs with
    | some i, some is => some (i :: is)
    | _, _ => none

/-- `df[cs]` column projection; `none` models the pandas KeyError when a
label is missing. -/
def DF.select (df : DF) (cs : List String) : Option DF :=
  match idxList df.cols cs with
  | none => none
  | some idxs => some ⟨cs, df.rows.map (fun r => idxs.map (fun i => r.getD i Cell.null))⟩

/-- Replace one column's cells pointwise (no-op when the label is absent;
never the case at the call sites). -/
def DF.mapCol (df : DF) (c : String) (f : Cell → Cell) : DF :=
  match df.colIdx c with
  | none => df
  | some i => ⟨df.cols, df.rows.map (fun r => r.set i (f (r.getD i Cell.null)))⟩

/-- Keep the rows whose cell in column `c` satisfies `p`. -/
def DF.filterRows (df : DF) (c : String) (p : Cell → Bool) : DF :=
  match df.colIdx c with
  | none => df
  | some i => ⟨df.cols, df.rows.filter (fun r => p (r.getD i Cell.null))⟩

/-- pandas `rename`: relabel every matching column. -/
def DF.renameCol (df : DF) (src dst : String) : DF :=
  ⟨df.cols.map (fun c => if c = src then dst else c), df.rows⟩

/-- `df[dst] = df[src]`: copy a column, appending `dst` at the end when it
is a new label (pandas adds new columns last). -/
def DF.copyCol (df : DF) (src dst : String) : DF :=
  match df.colIdx src with
  | none => df
  | some i =>
    match df.colIdx dst with
    | some j => ⟨df.cols, df.rows.map (fun r => r.set j (r.getD i Cell.null))⟩
    | none => ⟨df.cols ++ [dst], df.rows.map (fun r => r ++ [r.getD i Cell.null])⟩

/-- pandas `drop(columns=[c])`: remove every column labelled `c`. -/
def DF.dropColumn (df : DF) (c : String) : DF :=
  let keep := df.cols.enum.filter (fun p => p.2 != c)
  ⟨keep.map Prod.snd, df.rows.map (fun r => keep.map (fun p => r.getD p.1 Cell.null))⟩

/-- `df.melt(id_vars=[idCol], var_name=v, value_name=w)`: unpivot every
other column; the output columns are `[idCol, v, w]`, stacked one block per
melted column. -/
def DF.meltOne (df : DF) (idCol varName valueName : String) : DF :=
  match df.colIdx idCol with
  | none => df
  | some i =>
    let valueIdx := (df.cols.enum.filter (fun p => p.2 != idCol)).map Prod.fst
    ⟨[idCol, varName, valueName],
     valueIdx.flatMap (fun j =>
       df.rows.map (fun r =>
         [r.getD i Cell.null, Cell.str (df.cols.getD j ""), r.getD j Cell.null]))⟩

/-- The composite metadata column label (a single literal backslash). -/
def compositeCol : String :=
  "unit,sex,age,geo\\time"

/-- `Series.str.split(",")` on one cell; non-string cells give no parts
(pandas yields NaN there, padded below). -/
def cellSplit (c : Cell) : List String :=
  match c with
  | .str s => pySplit s ','
  | _ => []

/-- Step 3 of `clean_data`: when the composite column is present, split it
on commas into four new columns `unit, sex, age, region` appended at the
end — failing like the pandas assignment when the expanded width is not
exactly 4 — then drop the composite column.  Absent: unchanged. -/
def splitComposite (df : DF) : Option DF :=
  match df.colIdx compositeCol with
  | none => some df
  | some i =>
    let parts := df.rows.map (fun r => cellSplit (r.getD i Cell.null))
    let width := parts.foldl (fun a l => max a l.length) 0
    if width = 4 then
      some (DF.dropColumn
        ⟨df.cols ++ ["unit", "sex", "age", "region"],
         (df.rows.zip parts).map (fun rp =>
           rp.1 ++ (List.range 4).map (fun k => (rp.2[k]?).elim Cell.null Cell.str))⟩
        compositeCol)
    else none

/-- Step 4 on `year`: `pd.to_numeric(col.astype(str).str.strip())`.
A numeric cell round-trips through its string rendering, strings are
stripped and parsed, NaN stays NaN. -/
def yearParseCell (c : Cell) : Cell :=
  match c with
  | .str s =>
    match parseNumeric (pyStrip s) with
    | some q => .num q
    | none => .null
  | .num q => .num q
  | .null => .null

/-- Step 4 on `value`: `astype(str).str.extract(r"(\d+\.?\d*)")` then
`to_numeric`.  The regex skips the minus sign of a negative float's string
form, so a numeric cell keeps its absolute value; NaN's string form has no
digits, so it stays NaN. -/
def valueParseCell (c : Cell) : Cell :=
  match c with
  | .str s =>
    match valueParse s with
    | some q => .num q
    | none => .null
  | .num q => .num (if q < 0 then -q else q)
  | .null => .null

/-- Is the cell NaN? -/
def Cell.isNull : Cell → Bool
  | .null => true
  | _ => false

/-- Step 5: `dropna(subset=["year", "value"])`. -/
def dropnaYearValue (df : DF) : DF :=
  let iy := df.colIdx "year"
  let iv := df.colIdx "value"
  ⟨df.cols, df.rows.filter (fun r =>
    (match iy with | some i => !(r.getD i Cell.null).isNull | none => true) &&
    (match iv with | some i => !(r.getD i Cell.null).isNull | none => true))⟩

/-- `astype(int)` on the year column: truncation toward zero. -/
def yearIntCell (c : Cell) : Cell :=
  match c with
  | .num q => .num (mkRat (truncRat q) 1)
  | c => c

/-- `astype(str)` of a region cell.  The float rendering only needs never
to collide with a region code, which the digits-and-slash form guarantees;
NaN renders as `nan`. -/
def cellStr (c : Cell) : String :=
  match c with
  | .str s => s
  | .num q => toString q.num ++ "/" ++ toString q.den
  | .null => "nan"

/-- Step 5.1, first line: `astype(str).str.strip().str.upper()`. -/
def regionUpperCell (c : Cell) : Cell :=
  .str (pyUpper (pyStrip (cellStr c)))

/-- `_map_geo_to_enum_value`'s `_map_one`: match the upper-stripped text
against the catalog values, then the member names; unmatched input is kept
(the `fillna` with the original series). -/
def mapGeoOne (s : String) : String :=
  let u := pyUpper (pyStrip s)
  match allRegions.find? (fun r => pyUpper r.value == u) with
  | some r => r.value
  | none =>
    match allRegions.find? (fun r => pyUpper r.name == u) with
    | some r => r.value
    | none => s

/-- Step 5.1, second line: `_map_geo_to_enum_value(...)` then
`.str.upper()` (all cells are strings after the first line). -/
def regionEnumCell (c : Cell) : Cell :=
  match c with
  | .str s => .str (pyUpper (mapGeoOne s))
  | c => c

/-- `Series == code` on a cell: only a string cell can compare equal. -/
def cellEqStr (c : Cell) (s : String) : Bool :=
  match c with
  | .str t => t == s
  | _ => false

/-- Steps 3–7 of `clean_data` on the reshaped long table; `fromRaw` is the
provenance flag fixed in step 2 and `bind` propagates the pandas errors. -/
def cleanFinish (dfLong : DF) (fromRaw : Bool) (target : Region) : Option DF :=
  (splitComposite dfLong).bind (fun d3 =>
    let d4 := (d3.mapCol "year" yearParseCell).mapCol "value" valueParseCell
    let d5 := (dropnaYearValue d4).mapCol "year" yearIntCell
    let d51 := (d5.mapCol "region" regionUpperCell).mapCol "region" regionEnumCell
    let d6 := d51.filterRows "region" (fun c => cellEqStr c target.value)
    cond fromRaw
      (d6.select ["unit", "sex", "age", "region", "year", "value"])
      ((d6.select ["unit", "sex", "age", "region", "year", "value"]).bind (fun d7 =>
        (d7.copyCol "region" "geo").select ["unit", "sex", "age", "geo", "year", "value"])))

/-- Steps 2–7 of `clean_data` on the already header-stripped table; `none`
models the raised KeyError / pandas errors.  Step 2 detects the shape:
composite column present (raw), else the six adapter columns present
case-insensitively (normalized: lowercase, rename `time`→`year`, copy
`geo` into `region`, project), else the case-insensitive composite
fallback, treated as raw. -/
def cleanSteps (df : DF) (target : Region) : Option DF :=
  if df.cols.contains compositeCol then
    cleanFinish (df.meltOne compositeCol "year" "value") true target
  else if neededFields.all (fun c => (df.cols.map pyLower).contains c) then
    ((((⟨df.cols.map pyLower, df.rows⟩ : DF).renameCol "time" "year").copyCol
          "geo" "region").select
        ["unit", "sex", "age", "region", "year", "value"]).bind
      (fun d => cleanFinish d false target)
  else
    (df.cols.find? (fun c => pyLower (pyStrip c) == compositeCol)).bind
      (fun combined =>
        cleanFinish ((df.meltOne combined "year" "value").renameCol combined compositeCol)
          true target)

/-- `clean_data(df, export_country_code=target)`.  Step 1 rebinds the
caller's column labels in place (`df.columns = df.columns.str.strip()`), so
the result is the pair (the input table's state after the call, the cleaned
output — or `none` for the raised error). -/
def clean_data (df : DF) (target : Region) : DF × Option DF :=
  let stripped : DF := ⟨df.cols.map pyStrip, df.rows⟩
  (stripped, cleanSteps stripped target)

theorem select_cols {df e : DF} {cs : List String} (h : df.select cs = some e) :
    e.cols = cs := by
  unfold DF.select at h
  cases hm : idxList df.cols cs with
  | none => rw [hm] at h; cases h
  | some idxs => rw [hm] at h; cases h; rfl

theorem select_rows {df e : DF} {cs : List String} (h : df.select cs = some e) :
    ∃ idxs, idxList df.cols cs = some idxs ∧
      e.rows = df.rows.map (fun r => idxs.map (fun i => r.getD i Cell.null)) := by
  unfold DF.select at h
  cases hm : idxList df.cols cs with
  | none => rw [hm] at h; cases h
  | some idxs =>
    rw [hm] at h
    cases h
    exact ⟨idxs, rfl, rfl⟩

theorem mapCol_cols (df : DF) (c : String) (f : Cell → Cell) :
    (df.mapCol c f).cols = df.cols := by
  unfold DF.mapCol
  cases df.colIdx c <;> rfl

theorem filterRows_cols (df : DF) (c : String) (p : Cell → Bool) :
    (df.filterRows c p).cols = df.cols := by
  unfold DF.filterRows
  cases df.colIdx c <;> rfl

theorem dropna_cols (df : DF) : (dropnaYearValue df).cols = df.cols :=
  rfl

theorem filterRows_mem {df : DF} {c : String} {p : Cell → Bool} {i : ℕ}
    (hi : df.colIdx c = some i) {r : List Cell} (hr : r ∈ (df.filterRows c p).rows) :
    r ∈ df.rows ∧ p (r.getD i Cell.null) = true := by
  unfold DF.filterRows at hr
  rw [hi] at hr
  exact List.mem_filter.mp hr

theorem cellEqStr_eq {c : Cell} {s : String} (h : cellEqStr c s = true) :
    c = Cell.str s := by
  cases c with
  | str t =>
    have : t = s := by simpa [cellEqStr] using h
    rw [this]
  | num q => simp [cellEqStr] at h
  | null => simp [cellEqStr] at h

theorem copyCol_geo {d : DF} (hd : d.cols = ["unit", "sex", "age", "region", "year", "value"]) :
    (d.copyCol "region" "geo").cols =
      ["unit", "sex", "age", "region", "year", "value", "geo"] ∧
    (d.copyCol "region" "geo").rows = d.rows.map (fun r => r ++ [r.getD 3 Cell.null]) := by
  have h1 : d.colIdx "region" = some 3 := by
    unfold DF.colIdx
    rw [hd]
    rfl
  have h2 : d.colIdx "geo" = none := by
    unfold DF.colIdx
    rw [hd]
    rfl
  unfold DF.copyCol
  rw [h1, h2]
  refine ⟨?_, rfl⟩
  show d.cols ++ ["geo"] = _
  rw [hd]
  rfl

theorem cleanFinish_raw_cols {dfLong out : DF} {target : Region}
    (h : cleanFinish dfLong true target = some out) :
    out.cols = ["unit", "sex", "age", "region", "year", "value"] := by
  unfold cleanFinish at h
  cases hsplit : splitComposite dfLong with
  | none => rw [hsplit] at h; cases h
  | some d3 =>
    rw [hsplit] at h
    simp only [Option.some_bind] at h
    exact select_cols h

theorem cleanFinish_norm {d out : DF} {target : Region}
    (hd : d.cols = ["unit", "sex", "age", "region", "year", "value"])
    (h : cleanFinish d false target = some out) :
    out.cols = ["unit", "sex", "age", "geo", "year", "value"] ∧
    ∀ r ∈ out.rows, r.getD 3 Cell.null = Cell.str target.value := by
  have hsplit : splitComposite d = some d := by
    unfold splitComposite DF.colIdx
    rw [hd]
    rfl
  unfold cleanFinish at h
  rw [hsplit] at h
  simp only [Option.some_bind] at h
  have hc6 : (((((d.mapCol "year" yearParseCell).mapCol "value" valueParseCell)
      |> dropnaYearValue).mapCol "year" yearIntCell).mapCol "region" regionUpperCell
      |>.mapCol "region" regionEnumCell
      |>.filterRows "region" (fun c => cellEqStr c target.value)).cols =
      ["unit", "sex", "age", "region", "year", "value"] := by
    rw [filterRows_cols, mapCol_cols, mapCol_cols, mapCol_cols, dropna_cols,
      mapCol_cols, mapCol_cols, hd]
  cases hsel : (((((d.mapCol "year" yearParseCell).mapCol "value" valueParseCell)
      |> dropnaYearValue).mapCol "year" yearIntCell).mapCol "region" regionUpperCell
      |>.mapCol "region" regionEnumCell
      |>.filterRows "region" (fun c => cellEqStr c target.value)).select
      ["unit", "sex", "age", "region", "year", "value"] with
  | none => rw [hsel] at h; cases h
  | some d7 =>
    rw [hsel] at h
    simp only [Option.some_bind] at h
    have h7c : d7.cols = ["unit", "sex", "age", "region", "year", "value"] :=
      select_cols hsel
    have hcopy := copyCol_geo h7c
    refine ⟨select_cols h, ?_⟩
    intro r hr
    obtain ⟨idxs, hidxs, hrows⟩ := select_rows h
    rw [hcopy.1] at hidxs
    have hidxs9 : idxs = [0, 1, 2, 6, 4, 5] := by
      have : idxList ["unit", "sex", "age", "region", "year", "value", "geo"]
          ["unit", "sex", "age", "geo", "year", "value"] = some [0, 1, 2, 6, 4, 5] := rfl
      rw [this] at hidxs
      cases hidxs
      rfl
    rw [hidxs9] at hrows
    rw [hrows] at hr
    rcases List.mem_map.mp hr with ⟨r1, hr1, rfl⟩
    rw [hcopy.2] at hr1
    rcases List.mem_map.mp hr1 with ⟨r2, hr2, rfl⟩
    obtain ⟨idxs6, hidxs6, hrows6⟩ := select_rows hsel
    rw [hc6] at hidxs6
    have hidxs6e : idxs6 = [0, 1, 2, 3, 4, 5] := by
      have : idxList ["unit", "sex", "age", "region", "year", "value"]
          ["unit", "sex", "age", "region", "year", "value"] = some [0, 1, 2, 3, 4, 5] := rfl
      rw [this] at hidxs6
      cases hidxs6
      rfl
    rw [hidxs6e] at hrows6
    rw [hrows6] at hr2
    rcases List.mem_map.mp hr2 with ⟨r3, hr3, rfl⟩
    have hidx3 : ((((((d.mapCol "year" yearParseCell).mapCol "value" valueParseCell)
        |> dropnaYearValue).mapCol "year" yearIntCell).mapCol "region" regionUpperCell)
        |>.mapCol "region" regionEnumCell).colIdx "region" = some 3 := by
      unfold DF.colIdx
      rw [mapCol_cols, mapCol_cols, mapCol_cols, dropna_cols, mapCol_cols, mapCol_cols, hd]
      rfl
    obtain ⟨-, hpred⟩ := filterRows_mem hidx3 hr3
    exact cellEqStr_eq hpred

theorem cleanSteps_raw {S out : DF} {target : Region}
    (hraw : S.cols.contains compositeCol = true)
    (h : cleanSteps S target = some out) :
    out.cols = ["unit", "sex", "age", "region", "year", "value"] := by
  unfold cleanSteps at h
  rw [if_pos hraw] at h
  exact cleanFinish_raw_cols h

theorem cleanSteps_norm {S out : DF} {target : Region}
    (hraw : S.cols.contains compositeCol = false)
    (hnorm : neededFields.all (fun c => (S.cols.map pyLower).contains c) = true)
    (h : cleanSteps S target = some out) :
    out.cols = ["unit", "sex", "age", "geo", "year", "value"] ∧
    ∀ r ∈ out.rows, r.getD 3 Cell.null = Cell.str target.value := by
  unfold cleanSteps at h
  rw [if_neg (by rw [hraw]; exact Bool.false_ne_true)] at h
  rw [if_pos hnorm] at h
  cases hsel0 : (((⟨S.cols.map pyLower, S.rows⟩ : DF).renameCol "time" "year").copyCol
      "geo" "region").select ["unit", "sex", "age", "region", "year", "value"] with
  | none => rw [hsel0] at h; cases h
  | some d =>
    rw [hsel0] at h
    simp only [Option.some_bind] at h
    exact cleanFinish_norm (select_cols hsel0) h

/-- C1: for every input table and target accepted by `clean_data` (the call
returns a table instead of raising): if the table is raw-shaped — the
composite `unit,sex,age,geo\time` column present after header stripping —
the output columns are exactly (unit, sex, age, region, year, value); if it
is instead already-normalized — no composite column, the six adapter
columns present case-insensitively — the output columns are exactly
(unit, sex, age, geo, year, value) and every output row's `geo` cell is the
resolved target region's code. -/
theorem clean_data_schema_duality (df : DF) (target : Region) (out : DF)
    (h : (clean_data df target).2 = some out) :
    ((df.cols.map pyStrip).contains compositeCol = true →
      out.cols = ["unit", "sex", "age", "region", "year", "value"]) ∧
    ((df.cols.map pyStrip).contains compositeCol = false →
      neededFields.all (fun c => ((df.cols.map pyStrip).map pyLower).contains c) = true →
      out.cols = ["unit", "sex", "age", "geo", "year", "value"] ∧
      ∀ r ∈ out.rows, r.getD 3 Cell.null = Cell.str target.value) := by
  have hs : cleanSteps ⟨df.cols.map pyStrip, df.rows⟩ target = some out := h
  exact ⟨fun hraw => cleanSteps_raw hraw hs, fun hraw hnorm => cleanSteps_norm hraw hnorm hs⟩

/-- A one-row raw-shaped sample table. -/
def rawSample : DF :=
  ⟨[compositeCol, "2019"], [[Cell.str "YR,M,Y_LT1,PT", Cell.str "78"]]⟩

/-- A two-row already-normalized sample table (one PT row, one FR row). -/
def normSample : DF :=
  ⟨["unit", "sex", "age", "geo", "time", "value"],
   [[Cell.str "YR", Cell.str "M", Cell.str "Y_LT1", Cell.str "PT", Cell.str "2019", Cell.str "78"],
    [Cell.str "YR", Cell.str "F", Cell.str "Y_LT1", Cell.str "FR", Cell.str "2019", Cell.str "79"]]⟩

/-- C1 witness: the raw-branch schema at the raw sample table. -/
theorem clean_data_schema_duality_witness :
    ((clean_data rawSample Region.PT).2 =
      some ⟨["unit", "sex", "age", "region", "year", "value"],
        [[Cell.str "YR", Cell.str "M", Cell.str "Y_LT1", Cell.str "PT",
          Cell.num (mkRat 2019 1), Cell.num (mkRat 78 1)]]⟩) ∧
    (rawSample.cols.map pyStrip).contains compositeCol = true ∧
    (⟨["unit", "sex", "age", "region", "year", "value"],
        [[Cell.str "YR", Cell.str "M", Cell.str "Y_LT1", Cell.str "PT",
          Cell.num (mkRat 2019 1), Cell.num (mkRat 78 1)]]⟩ : DF).cols =
      ["unit", "sex", "age", "region", "year", "value"] :=
  ⟨by decide, by decide,
    (clean_data_schema_duality rawSample Region.PT _ (by decide)).1 (by decide)⟩

/-- A raw-shaped table whose composite header carries a trailing space. -/
def paddedHeaderTable : DF :=
  ⟨["unit,sex,age,geo\\time ", "2019"], [[Cell.str "YR,M,Y_LT1,PT", Cell.str "78"]]⟩

/-- C8 counterexample: step 1 of `clean_data` rebinds the caller's column
labels in place (`df.columns = df.columns.str.strip()`), so an input whose
header carries a trailing space is observably modified by the call — the
pipeline does not leave the input table unmodified. -/
theorem clean_data_mutates_padded_header :
    (clean_data paddedHeaderTable Region.PT).1 ≠ paddedHeaderTable ∧
    (clean_data paddedHeaderTable Region.PT).1.cols = [compositeCol, "2019"] ∧
    paddedHeaderTable.cols ≠ [compositeCol, "2019"] := by
  exact ⟨by decide, by decide, by decide⟩

/-- C8 (amended): `clean_data` never touches the input's rows and builds
its output as a separate table, but it strips the input's column labels in
place; the input is left fully unmodified exactly when its labels are
already stripped. -/
theorem clean_data_frame_effect (df : DF) (target : Region) :
    (clean_data df target).1.rows = df.rows ∧
    (clean_data df target).1.cols = df.cols.map pyStrip ∧
    ((∀ c ∈ df.cols, pyStrip c = c) → (clean_data df target).1 = df) := by
  refine ⟨rfl, rfl, ?_⟩
  intro h
  have hcols : df.cols.map pyStrip = df.cols := by
    calc df.cols.map pyStrip = df.cols.map id := List.map_congr_left h
    _ = df.cols := List.map_id _
  show (⟨df.cols.map pyStrip, df.rows⟩ : DF) = df
  rw [hcols]

/-- C8 witness: a table with already-stripped labels is left unmodified. -/
theorem clean_data_frame_effect_witness :
    (∀ c ∈ (⟨[compositeCol, "2019"], ([] : List (List Cell))⟩ : DF).cols, pyStrip c = c) ∧
    (clean_data ⟨[compositeCol, "2019"], []⟩ Region.PT).1 = ⟨[compositeCol, "2019"], []⟩ :=
  ⟨by decide,
    (clean_data_frame_effect ⟨[compositeCol, "2019"], []⟩ Region.PT).2.2 (by decide)⟩
